import Mathlib

/-!
Verification of the offload/dispatch subsystem of the hasha repository
(src/index.js), as a shallow embedding in Lean 4.

Bytes are modelled as `Nat` (each < 256), buffers as `List Nat`, JavaScript
values as the inductive `JSVal`, and plain JavaScript objects as insertion
ordered association lists `List (String × JSVal)` mutated through `objSet`
(property assignment semantics).  The external `crypto.createHash` primitive
is modelled by an explicit streaming `Hasher` state whose `digest` applies a
concrete hash function; the `sha512` algorithm is given its real FIPS 180-4
definition so that concrete digests can be computed.
-/

/-! ## JavaScript value model -/

/-- JavaScript values as far as the error codec needs them: scalars
(strings, numbers, booleans), `null`, `undefined`, and composite objects. -/
inductive JSVal where
  | str (s : String)
  | num (n : Int)
  | bool (b : Bool)
  | null
  | undefined
  | obj (fields : List (String × JSVal))

/-- The JavaScript `typeof` operator on `JSVal`; note `typeof null` is
`"object"`. -/
def jsTypeof : JSVal → String
  | .str _ => "string"
  | .num _ => "number"
  | .bool _ => "boolean"
  | .null => "object"
  | .undefined => "undefined"
  | .obj _ => "object"

/-- Property assignment `o[k] = v` on a plain object: overwrite the existing
entry for `k` if present, otherwise append a new entry. -/
def objSet (o : List (String × JSVal)) (k : String) (v : JSVal) :
    List (String × JSVal) :=
  if o.any (fun p => p.1 = k) then
    o.map (fun p => if p.1 = k then (k, v) else p)
  else
    o ++ [(k, v)]

/-- Property read `o[k]` on a plain object: `undefined` when absent. -/
def objGet (o : List (String × JSVal)) (k : String) : JSVal :=
  match o.find? (fun p => p.1 = k) with
  | some p => p.2
  | none => .undefined

/-! ## Input data: buffers and strings -/

/-- UTF-8 encoding of a single character. -/
def utf8Char (c : Char) : List Nat :=
  let n := c.toNat
  if n < 0x80 then [n]
  else if n < 0x800 then
    [0xC0 ||| (n >>> 6), 0x80 ||| (n &&& 0x3F)]
  else if n < 0x10000 then
    [0xE0 ||| (n >>> 12), 0x80 ||| ((n >>> 6) &&& 0x3F), 0x80 ||| (n &&& 0x3F)]
  else
    [0xF0 ||| (n >>> 18), 0x80 ||| ((n >>> 12) &&& 0x3F),
     0x80 ||| ((n >>> 6) &&& 0x3F), 0x80 ||| (n &&& 0x3F)]

/-- UTF-8 encoding of a string, the byte sequence `hash.update` consumes when
given a string with input encoding `utf8`. -/
def utf8Bytes (s : String) : List Nat :=
  (s.data.map utf8Char).flatten

/-- A single hashable datum: a string or a byte buffer. -/
inductive JSData where
  | str (s : String)
  | buf (bytes : List Nat)

/-- The bytes a datum contributes to the hash (strings via UTF-8). -/
def JSData.toBytes : JSData → List Nat
  | .str s => utf8Bytes s
  | .buf b => b

/-- The `input` argument of `hasha`: a single datum or an array of data. -/
inductive HashInput where
  | single (d : JSData)
  | arr (parts : List JSData)

/-! ## SHA-512 (FIPS 180-4), the model of the external hash primitive -/

/-- 64-bit truncating addition. -/
def add64 (a b : Nat) : Nat := (a + b) % 2 ^ 64

/-- 64-bit right rotation. -/
def rotr64 (n x : Nat) : Nat := ((x >>> n) ||| (x <<< (64 - n))) % 2 ^ 64

/-- 64-bit bitwise complement. -/
def not64 (x : Nat) : Nat := x ^^^ 0xFFFFFFFFFFFFFFFF

/-- SHA-512 choice function. -/
def sha2Ch (x y z : Nat) : Nat := (x &&& y) ^^^ (not64 x &&& z)

/-- SHA-512 majority function. -/
def sha2Maj (x y z : Nat) : Nat := (x &&& y) ^^^ (x &&& z) ^^^ (y &&& z)

/-- SHA-512 big sigma 0. -/
def bigSigma0 (x : Nat) : Nat := rotr64 28 x ^^^ rotr64 34 x ^^^ rotr64 39 x

/-- SHA-512 big sigma 1. -/
def bigSigma1 (x : Nat) : Nat := rotr64 14 x ^^^ rotr64 18 x ^^^ rotr64 41 x

/-- SHA-512 small sigma 0. -/
def smallSigma0 (x : Nat) : Nat := rotr64 1 x ^^^ rotr64 8 x ^^^ (x >>> 7)

/-- SHA-512 small sigma 1. -/
def smallSigma1 (x : Nat) : Nat := rotr64 19 x ^^^ rotr64 61 x ^^^ (x >>> 6)

/-- The 80 SHA-512 round constants (rounds 0 to 79, ten per group). -/
def sha512K : List Nat :=
  [0x428a2f98d728ae22, 0x7137449123ef65cd, 0xb5c0fbcfec4d3b2f,
   0xe9b5dba58189dbbc, 0x3956c25bf348b538, 0x59f111f1b605d019,
   0x923f82a4af194f9b, 0xab1c5ed5da6d8118, 0xd807aa98a3030242,
   0x12835b0145706fbe] ++
  [0x243185be4ee4b28c, 0x550c7dc3d5ffb4e2, 0x72be5d74f27b896f,
   0x80deb1fe3b1696b1, 0x9bdc06a725c71235, 0xc19bf174cf692694,
   0xe49b69c19ef14ad2, 0xefbe4786384f25e3, 0x0fc19dc68b8cd5b5,
   0x240ca1cc77ac9c65] ++
  [0x2de92c6f592b0275, 0x4a7484aa6ea6e483, 0x5cb0a9dcbd41fbd4,
   0x76f988da831153b5, 0x983e5152ee66dfab, 0xa831c66d2db43210,
   0xb00327c898fb213f, 0xbf597fc7beef0ee4, 0xc6e00bf33da88fc2,
   0xd5a79147930aa725] ++
  [0x06ca6351e003826f, 0x142929670a0e6e70, 0x27b70a8546d22ffc,
   0x2e1b21385c26c926, 0x4d2c6dfc5ac42aed, 0x53380d139d95b3df,
   0x650a73548baf63de, 0x766a0abb3c77b2a8, 0x81c2c92e47edaee6,
   0x92722c851482353b] ++
  [0xa2bfe8a14cf10364, 0xa81a664bbc423001, 0xc24b8b70d0f89791,
   0xc76c51a30654be30, 0xd192e819d6ef5218, 0xd69906245565a910,
   0xf40e35855771202a, 0x106aa07032bbd1b8, 0x19a4c116b8d2d0c8,
   0x1e376c085141ab53] ++
  [0x2748774cdf8eeb99, 0x34b0bcb5e19b48a8, 0x391c0cb3c5c95a63,
   0x4ed8aa4ae3418acb, 0x5b9cca4f7763e373, 0x682e6ff3d6b2b8a3,
   0x748f82ee5defb2fc, 0x78a5636f43172f60, 0x84c87814a1f0ab72,
   0x8cc702081a6439ec] ++
  [0x90befffa23631e28, 0xa4506cebde82bde9, 0xbef9a3f7b2c67915,
   0xc67178f2e372532b, 0xca273eceea26619c, 0xd186b8c721c0c207,
   0xeada7dd6cde0eb1e, 0xf57d4f7fee6ed178, 0x06f067aa72176fba,
   0x0a637dc5a2c898a6] ++
  [0x113f9804bef90dae, 0x1b710b35131c471b, 0x28db77f523047d84,
   0x32caab7b40c72493, 0x3c9ebe0a15c9bebc, 0x431d67c49c100d4c,
   0x4cc5d4becb3e42b6, 0x597f299cfc657e2a, 0x5fcb6fab3ad6faec,
   0x6c44198c4a475817]

/-- The SHA-512 initial hash value. -/
def sha512H0 : List Nat :=
  [0x6a09e667f3bcc908, 0xbb67ae8584caa73b, 0x3c6ef372fe94f82b,
   0xa54ff53a5f1d36f1] ++
  [0x510e527fade682d1, 0x9b05688c2b3e6c1f, 0x1f83d9abfb41bd6b,
   0x5be0cd19137e2179]

/-- SHA-512 padding: append `0x80`, zeros, and the 128-bit big-endian bit
length so the total length is a multiple of 128 bytes. -/
def sha512Pad (msg : List Nat) : List Nat :=
  let bitLen := msg.length * 8
  let zeros := (128 - (msg.length + 17) % 128) % 128
  msg ++ [0x80] ++ List.replicate zeros 0 ++
    (List.range 16).map (fun i => (bitLen >>> ((15 - i) * 8)) % 256)

/-- Big-endian interpretation of a byte list as one machine word. -/
def bytesToWord (bs : List Nat) : Nat :=
  bs.foldl (fun acc b => acc * 256 + b) 0

/-- The sixteen 64-bit message words of one 128-byte block. -/
def blockWords (block : List Nat) : List Nat :=
  (List.range 16).map (fun i => bytesToWord ((block.drop (8 * i)).take 8))

/-- Extend the 16 message words to the 80-entry message schedule. -/
def sha512Schedule (w0 : List Nat) : List Nat :=
  (List.range 64).foldl
    (fun w _ =>
      w ++ [add64 (add64 (smallSigma1 (w.getD (w.length - 2) 0))
                         (w.getD (w.length - 7) 0))
                  (add64 (smallSigma0 (w.getD (w.length - 15) 0))
                         (w.getD (w.length - 16) 0))])
    w0

/-- One SHA-512 compression round applied to the working variables. -/
def sha512Round (w : List Nat) (st : List Nat) (i : Nat) : List Nat :=
  match st with
  | [a, b, c, d, e, f, g, h] =>
    let t1 := add64 h (add64 (bigSigma1 e)
      (add64 (sha2Ch e f g) (add64 (sha512K.getD i 0) (w.getD i 0))))
    let t2 := add64 (bigSigma0 a) (sha2Maj a b c)
    [add64 t1 t2, a, b, c, add64 d t1, e, f, g]
  | other => other

/-- Compress one 128-byte block into the running hash value. -/
def sha512CompressBlock (hs : List Nat) (block : List Nat) : List Nat :=
  let w := sha512Schedule (blockWords block)
  let fin := (List.range 80).foldl (sha512Round w) hs
  List.zipWith add64 hs fin

/-- SHA-512 of a byte sequence, producing the 64 digest bytes. -/
def sha512Bytes (msg : List Nat) : List Nat :=
  let padded := sha512Pad msg
  let blocks := (List.range (padded.length / 128)).map
    (fun i => (padded.drop (128 * i)).take 128)
  let hs := blocks.foldl sha512CompressBlock sha512H0
  (hs.map (fun wd => (List.range 8).map (fun i => (wd >>> ((7 - i) * 8)) % 256))).flatten

/-- Modelled from the spec: the external hash-primitive library
(`crypto.createHash`) is out of the repository; the spec delegates algorithm
selection to it.  Only `"sha512"` (the library default used by the concrete
claims) is modelled concretely, by its FIPS 180-4 definition; every claim
quantifying over other algorithms treats this function as opaque. -/
def cryptoHashBytes (algorithm : String) (data : List Nat) : List Nat :=
  if algorithm = "sha512" then sha512Bytes data else []

/-! ## Streaming hasher (`crypto.createHash` handle) -/

/-- The streaming hasher state: the algorithm chosen at creation and the
bytes accumulated so far by `update`. -/
structure Hasher where
  algorithm : String
  data : List Nat

/-- The model of `crypto.createHash(algorithm)`. -/
def createHash (algorithm : String) : Hasher := ⟨algorithm, []⟩

/-- The model of `hash.update(bytes)`: appends to the accumulated input. -/
def Hasher.update (h : Hasher) (bytes : List Nat) : Hasher :=
  ⟨h.algorithm, h.data ++ bytes⟩

/-- The model of `hash.digest()`: the digest bytes of the accumulated input. -/
def Hasher.digestBytes (h : Hasher) : List Nat :=
  cryptoHashBytes h.algorithm h.data

/-! ## Output encodings and options -/

/-- Lowercase hex digit for a value below 16. -/
def hexDigitChar (n : Nat) : Char :=
  if n < 10 then Char.ofNat (48 + n) else Char.ofNat (87 + n)

/-- Hex rendering of a byte buffer (`buf.toString('hex')`). -/
def bytesToHex (bs : List Nat) : String :=
  String.mk ((bs.map (fun b => [hexDigitChar (b / 16), hexDigitChar (b % 16)])).flatten)

/-- Modelled from the spec: rendering digest bytes into textual
representations is a thin adapter around an external byte-to-text codec and
out of the core scope; only the `"hex"` encoding (the default used by the
concrete claims) is modelled concretely.  No claim evaluates another
encoding. -/
def bufferToString (encoding : String) (bs : List Nat) : String :=
  if encoding = "hex" then bytesToHex bs else ""

/-- The `options` object: `algorithm` and `encoding` properties, each either
absent (`none`, i.e. `undefined`) or a string. -/
structure HashaOptions where
  algorithm : Option String
  encoding : Option String

/-- JavaScript `v || d` for an optional string property: `undefined` and the
empty string are falsy and select the default. -/
def jsOrString (v : Option String) (d : String) : String :=
  match v with
  | none => d
  | some s => if s = "" then d else s

/-- Destructuring default `{x = d} = o`: applies only when the property is
`undefined`. -/
def jsDefault (v : Option String) (d : String) : String :=
  match v with
  | none => d
  | some s => s

/-- A digest as returned to the caller: raw bytes (`Buffer`) or a text
rendering. -/
inductive DigestOutput where
  | buffer (bytes : List Nat)
  | text (s : String)
deriving DecidableEq

/-! ## The synchronous path: `hasha(input, options)` -/

/-- The synchronous `hasha` function (src/index.js lines 123-144): resolve
the output encoding (`'buffer'` means raw bytes), create the hasher with
`options.algorithm || 'sha512'`, feed the input — each element in order when
it is an array — and digest with the output encoding. -/
def hasha (input : HashInput) (options : HashaOptions) : DigestOutput :=
  let outputEncoding0 := jsOrString options.encoding "hex"
  let outputEncoding : Option String :=
    if outputEncoding0 = "buffer" then none else some outputEncoding0
  let hash := createHash (jsOrString options.algorithm "sha512")
  let hash :=
    match input with
    | .arr parts => parts.foldl (fun (h : Hasher) (p : JSData) => h.update p.toBytes) hash
    | .single d => hash.update d.toBytes
  match outputEncoding with
  | none => .buffer hash.digestBytes
  | some enc => .text (bufferToString enc hash.digestBytes)

/-! ## The worker body and the offloaded path -/

/-- The worker-side `handlers.hash` (src/index.js lines 49-62): create the
hasher, update with each part when the input is an array, else with the
input, and return the raw digest bytes (posted back as a transferred
buffer). -/
def handlersHash (algorithm : String) (input : HashInput) : List Nat :=
  let hasher := createHash algorithm
  let hasher :=
    match input with
    | .arr parts => parts.foldl (fun (h : Hasher) (p : JSData) => h.update p.toBytes) hasher
    | .single d => hasher.update d.toBytes
  hasher.digestBytes

/-- The offloaded `hasha.async` (src/index.js lines 189-201, Worker-present
branch): destructure `algorithm = 'sha512'` and `encoding = 'hex'`, turn
`'buffer'` into `undefined`, obtain the raw digest bytes from the worker
`hash` handler via `taskWorker`, and wrap them as a `Buffer` or render them
in the encoding. -/
def hashaAsync (input : HashInput) (options : HashaOptions) : DigestOutput :=
  let algorithm := jsDefault options.algorithm "sha512"
  let encoding0 := jsDefault options.encoding "hex"
  let encoding : Option String :=
    if encoding0 = "buffer" then none else some encoding0
  let hash := handlersHash algorithm input
  match encoding with
  | none => .buffer hash
  | some enc => .text (bufferToString enc hash)

/-! ## Cross-boundary error codec -/

/-- A worker-side JavaScript `Error`: the built-in non-enumerable `message`
and `stack` properties, plus the enumerable own fields visited by
`Object.entries`. -/
structure JSError where
  message : String
  stack : String
  fields : List (String × JSVal)

/-- Well-formedness of a real `Error` object: `Object.entries` yields each
key once, and never the built-in non-enumerable `message` and `stack`. -/
def JSError.WF (e : JSError) : Prop :=
  (e.fields.map Prod.fst).Nodup ∧
  "message" ∉ e.fields.map Prod.fst ∧
  "stack" ∉ e.fields.map Prod.fst

/-- The worker-side error encoding (src/index.js lines 77-83): start from
the plain object `{message, stack}` and assign every own field whose value
does not have `typeof` `"object"`. -/
def encodeWorkerError (e : JSError) : List (String × JSVal) :=
  e.fields.foldl
    (fun acc p => if jsTypeof p.2 ≠ "object" then objSet acc p.1 p.2 else acc)
    [("message", .str e.message), ("stack", .str e.stack)]

/-- The reconstructed caller-side error: the `message` passed to the `Error`
constructor plus the fields copied onto it. -/
structure DecodedError where
  message : String
  fields : List (String × JSVal)

/-- JavaScript string conversion of the value passed to `new Error(...)`:
`undefined` yields an empty message, other values are stringified. -/
def errorMessageOf : JSVal → String
  | .str s => s
  | .num n => toString n
  | .bool b => if b then "true" else "false"
  | .null => "null"
  | .undefined => ""
  | .obj _ => "[object Object]"

/-- `recreateWorkerError` (src/index.js lines 19-29): construct a new error
from `sourceError.message` and assign every entry of the source object other
than `message` onto it. -/
def recreateWorkerError (sourceError : List (String × JSVal)) : DecodedError :=
  { message := errorMessageOf (objGet sourceError "message")
    fields := sourceError.foldl
      (fun acc p => if p.1 ≠ "message" then objSet acc p.1 p.2 else acc) [] }

/-! ## The caller-side message listener and settlement -/

/-- How a settled task's promise concludes: resolved with the digest bytes
or rejected with a reconstructed error. -/
inductive Settlement where
  | resolved (value : List Nat)
  | rejected (error : DecodedError)

/-- The payload of a worker response message: exactly one of `value` and
`error`. -/
inductive ResponsePayload where
  | value (v : List Nat)
  | error (e : List (String × JSVal))

/-- A worker response message with its correlation id. -/
structure ResponseMessage where
  id : Nat
  payload : ResponsePayload

/-- The outcome of running the `worker.on('message')` listener: either a
settlement of the task `id` together with the updated registry and
referenced flag, or a thrown exception (which still records the registry
mutation and `unref` performed before the throw). -/
inductive ListenerOutcome where
  | settled (tasks : List Nat) (referenced : Bool) (id : Nat) (outcome : Settlement)
  | threw (tasks : List Nat) (referenced : Bool) (exn : String)

/-- The `worker.on('message')` listener (src/index.js lines 90-103): look up
the task, delete it from the registry, `unref` the worker when the registry
is now empty, then resolve with `message.value` or reject with the recreated
error.  When the id is not registered the lookup yields `undefined` and the
`task.resolve`/`task.reject` access throws a TypeError out of the listener. -/
def workerOnMessage (tasks : List Nat) (referenced : Bool)
    (msg : ResponseMessage) : ListenerOutcome :=
  let present := msg.id ∈ tasks
  let tasks2 := tasks.erase msg.id
  let referenced2 := if tasks2.isEmpty then false else referenced
  if present then
    match msg.payload with
    | .value v => .settled tasks2 referenced2 msg.id (.resolved v)
    | .error e =>
      .settled tasks2 referenced2 msg.id (.rejected (recreateWorkerError e))
  else
    .threw tasks2 referenced2
      "TypeError: Cannot read properties of undefined (reading resolve)"

/-! ## The dispatch system: task registry and worker lifecycle -/

/-- The process-wide mutable state of the offload subsystem: the id counter,
the registry of pending task ids, whether the lazily created worker exists,
whether it is `ref`ed, the ids posted to the worker and not yet answered,
and the settlements delivered so far in order. -/
structure SysState where
  taskIdCounter : Nat
  tasks : List Nat
  workerCreated : Bool
  workerReferenced : Bool
  inFlight : List Nat
  settled : List (Nat × Settlement)

/-- The state before any offloaded call: no worker, empty registry. -/
def initState : SysState :=
  { taskIdCounter := 0, tasks := [], workerCreated := false,
    workerReferenced := false, inFlight := [], settled := [] }

/-- An observable event of the offload subsystem: a `taskWorker` dispatch
(src/index.js lines 111-121) or the arrival of a worker response for a given
id. -/
inductive SysEvent where
  | dispatch (method : String)
  | respond (id : Nat) (payload : ResponsePayload)

/-- One step of the offload subsystem.  `dispatch` allocates the next id,
registers it, creates the worker when absent, `ref`s it and posts the
message.  `respond id` is only possible for an id actually posted and not
yet answered; it runs the message listener, and yields `none` when the
listener throws. -/
def sysStep (s : SysState) (e : SysEvent) : Option SysState :=
  match e with
  | .dispatch _ =>
    let id := s.taskIdCounter
    some { taskIdCounter := id + 1, tasks := s.tasks ++ [id],
           workerCreated := true, workerReferenced := true,
           inFlight := s.inFlight ++ [id], settled := s.settled }
  | .respond id payload =>
    if id ∈ s.inFlight then
      match workerOnMessage s.tasks s.workerReferenced ⟨id, payload⟩ with
      | .settled tasks2 ref2 i outc =>
        some { s with
                tasks := tasks2
                workerReferenced := ref2
                inFlight := s.inFlight.erase id
                settled := s.settled ++ [(i, outc)] }
      | .threw _ _ _ => none
    else none

/-- Run a sequence of events from a state, failing when a step faults. -/
def sysRun (s : SysState) : List SysEvent → Option SysState
  | [] => some s
  | e :: rest =>
    match sysStep s e with
    | some s2 => sysRun s2 rest
    | none => none

/-! ## `hasha.stream` pipeline and `hasha.fromStream` -/

/-- A readable byte stream as `hasha.fromStream` consumes it: the chunks it
emits, and the read error it emits instead of ending, if any. -/
structure JsStream where
  chunks : List (List Nat)
  readError : Option String

/-- The argument passed to `hasha.fromStream`: a stream or any non-stream
value (described by its text form). -/
inductive StreamArg where
  | stream (s : JsStream)
  | notStream (desc : String)

/-- The `is-stream` predicate used by the guard. -/
def isStream : StreamArg → Bool
  | .stream _ => true
  | .notStream _ => false

/-- An error surfaced by `hasha.fromStream`: the guard's TypeError or a
propagated stream error. -/
inductive StreamError where
  | typeError (message : String)
  | streamError (message : String)
deriving DecidableEq

/-- What `this.read()` yields on `finish` after piping into
`hasha.stream(options)` (src/index.js lines 146-156): the digest of all
piped chunks, rendered per the output encoding set by `setEncoding`. -/
def hashaStreamRead (chunks : List (List Nat)) (options : HashaOptions) :
    DigestOutput :=
  let outputEncoding0 := jsOrString options.encoding "hex"
  let outputEncoding : Option String :=
    if outputEncoding0 = "buffer" then none else some outputEncoding0
  let hash := chunks.foldl (fun (h : Hasher) c => h.update c)
    (createHash (jsOrString options.algorithm "sha512"))
  match outputEncoding with
  | none => .buffer hash.digestBytes
  | some enc => .text (bufferToString enc hash.digestBytes)

/-- `hasha.fromStream` (src/index.js lines 158-173): reject non-streams with
a TypeError; otherwise pipe the stream into `hasha.stream(options)`,
rejecting on a stream error and resolving with `this.read()` on finish. -/
def hashaFromStream (arg : StreamArg) (options : HashaOptions) :
    Except StreamError DigestOutput :=
  if isStream arg = false then
    .error (.typeError "Expected a stream")
  else
    match arg with
    | .notStream _ => .error (.typeError "Expected a stream")
    | .stream s =>
      match s.readError with
      | some m => .error (.streamError m)
      | none => .ok (hashaStreamRead s.chunks options)

/-! ## Helper lemmas: the hasher accumulates the concatenation of the parts -/

/-- Folding `update` over a list of parts appends the concatenation of their
byte sequences to the hasher state. -/
theorem foldl_update_eq (ps : List JSData) (h0 : Hasher) :
    ps.foldl (fun (h : Hasher) (p : JSData) => h.update p.toBytes) h0 =
      ⟨h0.algorithm, h0.data ++ (ps.map JSData.toBytes).flatten⟩ := by
  induction ps generalizing h0 with
  | nil => cases h0; simp
  | cons p ps ih =>
    rw [List.foldl_cons, ih]
    simp [Hasher.update]

/-- Under the hypothesis that a single datum's bytes are the concatenation of
the parts' bytes, `hasha` on the array equals `hasha` on the single datum. -/
theorem hasha_arr_eq_of_flatten (x : JSData) (ps : List JSData)
    (options : HashaOptions)
    (hcat : JSData.toBytes x = (ps.map JSData.toBytes).flatten) :
    hasha (.arr ps) options = hasha (.single x) options := by
  unfold hasha
  dsimp only []
  rw [foldl_update_eq]
  simp [Hasher.update, createHash, hcat]

/-- C6: for every input given either as a single buffer/string or as an
equivalent ordered sequence of parts whose concatenation equals that input,
the synchronous hash operation yields an identical digest. -/
theorem hasha_parts_eq_hasha_single (x : JSData) (ps : List JSData)
    (options : HashaOptions)
    (hcat : JSData.toBytes x = (ps.map JSData.toBytes).flatten) :
    hasha (.arr ps) options = hasha (.single x) options :=
  hasha_arr_eq_of_flatten x ps options hcat

/-- Witness for C6: `hash("ab")` equals `hash(["a","b"])` under default
options. -/
theorem hasha_parts_eq_hasha_single_witness :
    hasha (.arr [.str "a", .str "b"]) ⟨none, none⟩ =
      hasha (.single (.str "ab")) ⟨none, none⟩ :=
  hasha_parts_eq_hasha_single (.str "ab") [.str "a", .str "b"] ⟨none, none⟩
    (by decide)

/-- C10: the empty sequence of parts hashes like the empty input: for every
options value, `hasha([])` equals `hasha("")`. -/
theorem hasha_empty_array_eq_empty_string (options : HashaOptions) :
    hasha (.arr []) options = hasha (.single (.str "")) options :=
  hasha_arr_eq_of_flatten (.str "") [] options (by decide)

set_option maxRecDepth 10000 in
/-- C7: `hasha("")` with default options (no algorithm or encoding given)
uses sha512 and hex and returns the well-known SHA-512 hex digest of the
empty string. -/
theorem hasha_empty_string_default_digest :
    hasha (.single (.str "")) ⟨none, none⟩ =
      .text "cf83e1357eefb8bdf1542850d66d8007d620e4050b5715dc83f4a921d36ce9ce47d0d13c5d85f2b0ff8318d2877eec2f63b931bd47417a81a538327af927da3e" := by
  decide

/-- C1: for every supported algorithm (a nonempty algorithm string) and every
input, the offloaded path (`hasha.async`, dispatching `hash` to the worker
body) with encoding `buffer` yields bytes identical to the synchronous
`hasha`. -/
theorem hashaAsync_buffer_eq_hasha_buffer (input : HashInput) (a : String)
    (ha : a ≠ "") :
    hashaAsync input ⟨some a, some "buffer"⟩ =
      hasha input ⟨some a, some "buffer"⟩ := by
  unfold hashaAsync hasha handlersHash
  dsimp only []
  cases input <;> simp [jsDefault, jsOrString, ha]

/-- Witness for C1: the two paths agree on the input `["a","b"]` with the
md5 algorithm and buffer encoding. -/
theorem hashaAsync_buffer_eq_hasha_buffer_witness :
    hashaAsync (.arr [.str "a", .str "b"]) ⟨some "md5", some "buffer"⟩ =
      hasha (.arr [.str "a", .str "b"]) ⟨some "md5", some "buffer"⟩ :=
  hashaAsync_buffer_eq_hasha_buffer (.arr [.str "a", .str "b"]) "md5"
    (by decide)

/-- C8: `hasha.fromStream` rejects every non-stream argument with a
TypeError, and for every stream argument that ends without a read error it
consumes the stream to completion and yields the digest of the concatenated
chunks. -/
theorem hashaFromStream_behavior (arg : StreamArg) (options : HashaOptions) :
    (isStream arg = false →
      hashaFromStream arg options = .error (.typeError "Expected a stream")) ∧
    (∀ s, arg = .stream s → s.readError = none →
      hashaFromStream arg options = .ok (hashaStreamRead s.chunks options)) := by
  constructor
  · intro h
    simp [hashaFromStream, h]
  · intro s hs hre
    subst hs
    simp [hashaFromStream, isStream, hre]

/-- Witness for C8: a number is rejected with the TypeError; a two-chunk
stream yields the digest of its concatenated bytes. -/
theorem hashaFromStream_behavior_witness :
    hashaFromStream (.notStream "42") ⟨none, none⟩ =
      .error (.typeError "Expected a stream") ∧
    hashaFromStream (.stream ⟨[[104], [105]], none⟩) ⟨none, none⟩ =
      .ok (hashaStreamRead [[104], [105]] ⟨none, none⟩) :=
  ⟨(hashaFromStream_behavior (.notStream "42") ⟨none, none⟩).1 rfl,
   (hashaFromStream_behavior (.stream ⟨[[104], [105]], none⟩) ⟨none, none⟩).2
     ⟨[[104], [105]], none⟩ rfl rfl⟩

/-! ## Helper lemmas: property assignment as append, and the codec shape -/

/-- Assigning a fresh key appends the entry. -/
theorem objSet_append_of_not_mem (o : List (String × JSVal)) (k : String)
    (v : JSVal) (h : ∀ p ∈ o, p.1 ≠ k) : objSet o k v = o ++ [(k, v)] := by
  unfold objSet
  have hany : o.any (fun p => p.1 = k) = false := by
    simp only [List.any_eq_false, decide_eq_true_eq]
    exact h
  rw [hany]
  simp

/-- Folding conditional property assignments of pairwise fresh keys over an
object with disjoint keys appends the kept entries in order. -/
theorem foldl_objSet_eq_append_filter (P : String × JSVal → Prop)
    [DecidablePred P] :
    ∀ (fields acc : List (String × JSVal)),
      (fields.map Prod.fst).Nodup →
      (∀ p ∈ acc, p.1 ∉ fields.map Prod.fst) →
      fields.foldl (fun a p => if P p then objSet a p.1 p.2 else a) acc =
        acc ++ fields.filter (fun p => P p) := by
  intro fields
  induction fields with
  | nil => intro acc _ _; simp
  | cons q fs ih =>
    intro acc hnd hdisj
    have hndfs : (fs.map Prod.fst).Nodup := (List.nodup_cons.mp (by simpa using hnd)).2
    have hqfs : q.1 ∉ fs.map Prod.fst := (List.nodup_cons.mp (by simpa using hnd)).1
    rw [List.foldl_cons]
    by_cases hP : P q
    · rw [if_pos hP, objSet_append_of_not_mem _ _ _ ?hfresh]
      case hfresh =>
        intro p hp hpk
        exact hdisj p hp (by simp [hpk])
      rw [ih (acc ++ [q]) hndfs ?hdisj2]
      case hdisj2 =>
        intro p hp
        rcases List.mem_append.mp hp with hpa | hpq
        · intro hmem
          exact hdisj p hpa (by simp [hmem])
        · rw [List.mem_singleton.mp hpq]
          exact hqfs
      simp [List.filter_cons, hP]
    · rw [if_neg hP]
      rw [ih acc hndfs ?hdisj3]
      case hdisj3 =>
        intro p hp hmem
        exact hdisj p hp (by simp [hmem])
      simp [List.filter_cons, hP]

/-- For a well-formed error, the worker-side encoding is the `message` and
`stack` entries followed by the scalar fields in order. -/
theorem encodeWorkerError_eq (e : JSError) (hwf : e.WF) :
    encodeWorkerError e =
      [("message", JSVal.str e.message), ("stack", JSVal.str e.stack)] ++
        e.fields.filter (fun p => jsTypeof p.2 ≠ "object") := by
  unfold encodeWorkerError
  exact foldl_objSet_eq_append_filter (fun p => jsTypeof p.2 ≠ "object")
    e.fields _ hwf.1 (by
      intro p hp
      rcases List.mem_cons.mp hp with h1 | h2
      · rw [h1]; exact hwf.2.1
      · rw [List.mem_singleton.mp h2]; exact hwf.2.2)

/-- For a source object with duplicate-free keys, the reconstructed error's
fields are the source entries other than `message`, in order. -/
theorem recreateWorkerError_fields (src : List (String × JSVal))
    (hnd : (src.map Prod.fst).Nodup) :
    (recreateWorkerError src).fields = src.filter (fun p => p.1 ≠ "message") := by
  unfold recreateWorkerError
  have := foldl_objSet_eq_append_filter (fun p => p.1 ≠ "message") src [] hnd
    (by intro p hp; cases hp)
  simpa using this

/-- In an object with duplicate-free keys, looking up the key of a member
entry finds exactly that entry. -/
theorem find?_eq_of_mem_nodupKeys (l : List (String × JSVal)) (k : String)
    (v : JSVal) (hnd : (l.map Prod.fst).Nodup) (hm : (k, v) ∈ l) :
    l.find? (fun p => p.1 = k) = some (k, v) := by
  induction l with
  | nil => cases hm
  | cons q fs ih =>
    have hndfs : (fs.map Prod.fst).Nodup := (List.nodup_cons.mp (by simpa using hnd)).2
    have hqfs : q.1 ∉ fs.map Prod.fst := (List.nodup_cons.mp (by simpa using hnd)).1
    rcases List.mem_cons.mp hm with heq | hmem
    · rw [← heq]
      simp [List.find?_cons]
    · have hq : (q.1 = k) = False := by
        simp only [eq_iff_iff, iff_false]
        intro h
        exact hqfs (h ▸ List.mem_map_of_mem Prod.fst hmem)
      rw [List.find?_cons]
      simp only [hq, decide_False]
      exact ih hndfs hmem

/-- The keys of the worker-side encoding of a well-formed error are
duplicate-free. -/
theorem encodeWorkerError_nodupKeys (e : JSError) (hwf : e.WF) :
    ((encodeWorkerError e).map Prod.fst).Nodup := by
  rw [encodeWorkerError_eq e hwf]
  have hsub : ((e.fields.filter (fun p => jsTypeof p.2 ≠ "object")).map Prod.fst).Sublist
      (e.fields.map Prod.fst) := (List.filter_sublist e.fields).map Prod.fst
  simp only [List.map_append, List.map_cons, List.map_nil]
  rw [List.nodup_append]
  refine ⟨by simp, hsub.nodup hwf.1, ?_⟩
  intro x hx
  rcases List.mem_cons.mp hx with h1 | h2
  · subst h1
    intro hmem
    exact hwf.2.1 (hsub.mem hmem)
  · rw [List.mem_singleton.mp h2]
    intro hmem
    exact hwf.2.2 (hsub.mem hmem)

/-- The fields of the round-tripped error of a well-formed error: the stack
entry followed by the scalar fields in order. -/
theorem roundTrip_fields_eq (e : JSError) (hwf : e.WF) :
    (recreateWorkerError (encodeWorkerError e)).fields =
      ("stack", JSVal.str e.stack) ::
        e.fields.filter (fun p => jsTypeof p.2 ≠ "object") := by
  rw [recreateWorkerError_fields _ (encodeWorkerError_nodupKeys e hwf),
    encodeWorkerError_eq e hwf]
  simp only [List.cons_append, List.nil_append, List.filter_cons,
    List.filter_filter]
  norm_num
  rw [if_neg (by decide : ¬("stack" : String) = "message")]
  congr 1
  apply List.filter_congr
  intro p hp
  have hpm : p.1 ≠ "message" := fun hm => hwf.2.1 (hm ▸ List.mem_map_of_mem Prod.fst hp)
  simp [hpm]

/-- C2: for every well-formed error raised in the worker, the round trip
through the cross-boundary codec (worker-side encoding, then
`recreateWorkerError`) preserves the message, and every scalar (string,
number, boolean) own field is present with an equal value. -/
theorem errorCodec_roundTrip (e : JSError) (hwf : e.WF) :
    (recreateWorkerError (encodeWorkerError e)).message = e.message ∧
    ∀ k v, (k, v) ∈ e.fields →
      (jsTypeof v = "string" ∨ jsTypeof v = "number" ∨ jsTypeof v = "boolean") →
      objGet (recreateWorkerError (encodeWorkerError e)).fields k = v := by
  constructor
  · show errorMessageOf (objGet (encodeWorkerError e) "message") = e.message
    rw [encodeWorkerError_eq e hwf]
    simp [objGet, List.find?_cons, errorMessageOf]
  · intro k v hkv hscal
    have hknem : k ≠ "message" :=
      fun hm => hwf.2.1 (hm ▸ List.mem_map_of_mem Prod.fst hkv)
    have hknes : k ≠ "stack" :=
      fun hs => hwf.2.2 (hs ▸ List.mem_map_of_mem Prod.fst hkv)
    have hscalb : jsTypeof v ≠ "object" := by
      rcases hscal with h | h | h <;> rw [h] <;> decide
    have hmemfil : (k, v) ∈ e.fields.filter (fun p => jsTypeof p.2 ≠ "object") :=
      List.mem_filter.mpr ⟨hkv, by simpa using hscalb⟩
    have hndfil :
        ((e.fields.filter (fun p => jsTypeof p.2 ≠ "object")).map Prod.fst).Nodup :=
      (((List.filter_sublist e.fields).map Prod.fst).nodup) hwf.1
    rw [roundTrip_fields_eq e hwf]
    unfold objGet
    have hstk : (decide (("stack" : String) = k)) = false := by
      simp only [decide_eq_false_iff_not]
      exact fun h => hknes h.symm
    rw [List.find?_cons]
    simp only [hstk]
    rw [find?_eq_of_mem_nodupKeys _ k v hndfil hmemfil]

/-- Witness for C2: an error with fields `{message:"x", code:42}` raised in
the worker reconstructs with message `"x"` and `code` equal to `42`. -/
theorem errorCodec_roundTrip_witness :
    (recreateWorkerError (encodeWorkerError ⟨"x", "st", [("code", .num 42)]⟩)).message
        = "x" ∧
    objGet (recreateWorkerError
        (encodeWorkerError ⟨"x", "st", [("code", .num 42)]⟩)).fields "code"
      = .num 42 :=
  ⟨(errorCodec_roundTrip ⟨"x", "st", [("code", .num 42)]⟩ (by
      refine ⟨?_, ?_, ?_⟩ <;> decide)).1,
   (errorCodec_roundTrip ⟨"x", "st", [("code", .num 42)]⟩ (by
      refine ⟨?_, ?_, ?_⟩ <;> decide)).2 "code" (.num 42)
     (List.mem_singleton.mpr rfl) (Or.inr (Or.inl rfl))⟩

/-- C9: the worker-side encoder copies an own field only when its value's
`typeof` is not `"object"`; since `typeof null` is `"object"`, a null-valued
field is dropped from the encoded error, and the decoded error lacks it. -/
theorem encode_drops_null_fields (e : JSError) (hwf : e.WF) (k : String)
    (hk : (k, JSVal.null) ∈ e.fields) :
    objGet (encodeWorkerError e) k = .undefined ∧
    objGet (recreateWorkerError (encodeWorkerError e)).fields k = .undefined := by
  have hknem : k ≠ "message" :=
    fun hm => hwf.2.1 (hm ▸ List.mem_map_of_mem Prod.fst hk)
  have hknes : k ≠ "stack" :=
    fun hs => hwf.2.2 (hs ▸ List.mem_map_of_mem Prod.fst hk)
  have hnotfil : ∀ p ∈ e.fields.filter (fun p => jsTypeof p.2 ≠ "object"),
      ¬(p.1 = k) := by
    intro p hp hpk
    obtain ⟨p1, p2⟩ := p
    simp only at hpk
    subst hpk
    have hpf := List.of_mem_filter hp
    have hpm := List.mem_of_mem_filter hp
    have h1 := find?_eq_of_mem_nodupKeys e.fields p1 JSVal.null hwf.1 hk
    have h2 := find?_eq_of_mem_nodupKeys e.fields p1 p2 hwf.1 hpm
    rw [h1] at h2
    have hnull : p2 = JSVal.null := by
      have h3 := Option.some.inj h2
      exact (congrArg Prod.snd h3).symm
    rw [hnull] at hpf
    simp [jsTypeof] at hpf
  have hnotbase : ∀ p ∈ encodeWorkerError e, ¬(p.1 = k) := by
    rw [encodeWorkerError_eq e hwf]
    intro p hp
    rcases List.mem_append.mp hp with hb | hf
    · rcases List.mem_cons.mp hb with h1 | h2
      · rw [h1]; exact fun h => hknem h.symm
      · rw [List.mem_singleton.mp h2]; exact fun h => hknes h.symm
    · exact hnotfil p hf
  have hnone : (encodeWorkerError e).find? (fun p => p.1 = k) = none := by
    rw [List.find?_eq_none]
    intro p hp
    simpa using hnotbase p hp
  constructor
  · unfold objGet
    rw [hnone]
  · rw [roundTrip_fields_eq e hwf]
    unfold objGet
    have hstk : (decide (("stack" : String) = k)) = false := by
      simp only [decide_eq_false_iff_not]
      exact fun h => hknes h.symm
    have hnonefil :
        (e.fields.filter (fun p => jsTypeof p.2 ≠ "object")).find?
          (fun p => p.1 = k) = none := by
      rw [List.find?_eq_none]
      intro p hp
      simpa using hnotfil p hp
    rw [List.find?_cons]
    simp only [hstk]
    rw [hnonefil]

/-- Witness for C9: a null-valued `cause` field is absent from both the
encoded and the reconstructed error. -/
theorem encode_drops_null_fields_witness :
    objGet (encodeWorkerError ⟨"x", "st", [("cause", .null)]⟩) "cause"
        = .undefined ∧
    objGet (recreateWorkerError
        (encodeWorkerError ⟨"x", "st", [("cause", .null)]⟩)).fields "cause"
      = .undefined :=
  encode_drops_null_fields ⟨"x", "st", [("cause", .null)]⟩
    (by refine ⟨?_, ?_, ?_⟩ <;> decide) "cause" (List.mem_singleton.mpr rfl)

/-! ## Invariants of the dispatch system -/

/-- The reachability invariant of the offload subsystem: registered ids and
posted ids are duplicate-free, every unanswered posted id is registered, the
settled ids together with the registered ids are exactly the allocated ids,
and the worker is referenced whenever a task is outstanding. -/
def SysInv (s : SysState) : Prop :=
  s.tasks.Nodup ∧ s.inFlight.Nodup ∧
  (∀ id ∈ s.inFlight, id ∈ s.tasks) ∧
  ((s.settled.map Prod.fst) ++ s.tasks).Perm (List.range s.taskIdCounter) ∧
  (s.tasks ≠ [] → s.workerReferenced = true)

/-- The initial state satisfies the invariant. -/
theorem sysInv_init : SysInv initState := by
  refine ⟨?_, ?_, ?_, ?_, ?_⟩ <;> simp [initState]

/-- Every id in the registry has been allocated. -/
theorem mem_tasks_lt_counter (s : SysState) (hinv : SysInv s) :
    ∀ id ∈ s.tasks, id < s.taskIdCounter := by
  intro id hid
  have := (hinv.2.2.2.1.mem_iff).mp (List.mem_append.mpr (Or.inr hid))
  simpa using this

/-- One step preserves the invariant. -/
theorem sysStep_inv (s : SysState) (e : SysEvent) (s2 : SysState)
    (hstep : sysStep s e = some s2) (hinv : SysInv s) : SysInv s2 := by
  obtain ⟨hnd, hndf, hsub, hperm, href⟩ := hinv
  cases e with
  | dispatch m =>
    have hcnot : s.taskIdCounter ∉ s.tasks := by
      intro hmem
      exact absurd (mem_tasks_lt_counter s ⟨hnd, hndf, hsub, hperm, href⟩ _ hmem)
        (lt_irrefl _)
    have hcnotf : s.taskIdCounter ∉ s.inFlight :=
      fun hmem => hcnot (hsub _ hmem)
    have hs2 : s2 = {
          taskIdCounter := s.taskIdCounter + 1
          tasks := s.tasks ++ [s.taskIdCounter]
          workerCreated := true
          workerReferenced := true
          inFlight := s.inFlight ++ [s.taskIdCounter]
          settled := s.settled } := by
      simpa [sysStep] using hstep.symm
    subst hs2
    refine ⟨?_, ?_, ?_, ?_, ?_⟩
    · rw [List.nodup_append]
      exact ⟨hnd, List.nodup_singleton _, by
        intro x hx
        simp only [List.mem_singleton]
        intro hx1
        exact hcnot (hx1 ▸ hx)⟩
    · rw [List.nodup_append]
      exact ⟨hndf, List.nodup_singleton _, by
        intro x hx
        simp only [List.mem_singleton]
        intro hx1
        exact hcnotf (hx1 ▸ hx)⟩
    · intro id hid
      rcases List.mem_append.mp hid with h1 | h2
      · exact List.mem_append.mpr (Or.inl (hsub _ h1))
      · exact List.mem_append.mpr (Or.inr h2)
    · show ((s.settled.map Prod.fst) ++ (s.tasks ++ [s.taskIdCounter])).Perm
        (List.range (s.taskIdCounter + 1))
      rw [List.range_succ, ← List.append_assoc]
      exact hperm.append_right [s.taskIdCounter]
    · intro _
      rfl
  | respond id payload =>
    simp only [sysStep] at hstep
    by_cases hif : id ∈ s.inFlight
    · rw [if_pos hif] at hstep
      have hidt : id ∈ s.tasks := hsub _ hif
      have hwm : workerOnMessage s.tasks s.workerReferenced ⟨id, payload⟩ =
          match payload with
          | .value v => .settled (s.tasks.erase id)
              (if (s.tasks.erase id).isEmpty then false else s.workerReferenced)
              id (.resolved v)
          | .error er => .settled (s.tasks.erase id)
              (if (s.tasks.erase id).isEmpty then false else s.workerReferenced)
              id (.rejected (recreateWorkerError er)) := by
        unfold workerOnMessage
        rw [if_pos hidt]
        cases payload <;> rfl
      have htasks2 : s.tasks.Perm (id :: s.tasks.erase id) :=
        List.perm_cons_erase hidt
      have hcore : ∀ outc : Settlement,
          SysInv { s with
            tasks := s.tasks.erase id
            workerReferenced :=
              if (s.tasks.erase id).isEmpty then false else s.workerReferenced
            inFlight := s.inFlight.erase id
            settled := s.settled ++ [(id, outc)] } := by
        intro outc
        refine ⟨hnd.erase id, hndf.erase id, ?_, ?_, ?_⟩
        · intro x hx
          have hxf : x ∈ s.inFlight := (s.inFlight.erase_sublist id).mem hx
          have hxne : x ≠ id := by
            intro hxe
            exact ((List.Nodup.mem_erase_iff hndf).mp hx).1 hxe
          exact (List.mem_erase_of_ne hxne).mpr (hsub _ hxf)
        · show ((s.settled ++ [(id, outc)]).map Prod.fst ++ s.tasks.erase id).Perm
            (List.range s.taskIdCounter)
          rw [List.map_append, List.append_assoc]
          refine List.Perm.trans ?_ hperm
          refine List.Perm.append_left _ ?_
          simpa using htasks2.symm
        · intro hne
          have hempty : ¬(s.tasks.erase id).isEmpty := by
            simpa [List.isEmpty_iff] using hne
          rw [if_neg hempty]
          apply href
          intro htaskse
          rw [htaskse] at hidt
          cases hidt
      cases payload with
      | value v =>
        rw [hwm] at hstep
        simp only at hstep
        have := Option.some.inj hstep
        rw [← this]
        exact hcore (.resolved v)
      | error er =>
        rw [hwm] at hstep
        simp only at hstep
        have := Option.some.inj hstep
        rw [← this]
        exact hcore (.rejected (recreateWorkerError er))
    · rw [if_neg hif] at hstep
      cases hstep

/-- Running any event sequence from a state satisfying the invariant ends in
a state satisfying the invariant. -/
theorem sysRun_inv (evs : List SysEvent) (s s2 : SysState)
    (hrun : sysRun s evs = some s2) (hinv : SysInv s) : SysInv s2 := by
  induction evs generalizing s with
  | nil =>
    simp only [sysRun] at hrun
    rw [← Option.some.inj hrun]
    exact hinv
  | cons e rest ih =>
    simp only [sysRun] at hrun
    cases hstep : sysStep s e with
    | none => rw [hstep] at hrun; cases hrun
    | some s1 =>
      rw [hstep] at hrun
      exact ih s1 hrun (sysStep_inv s e s1 hstep hinv)

/-- A settled listener outcome always carries the registry with the id
removed and the referenced flag dropped exactly when the registry drained. -/
theorem workerOnMessage_settled_shape (tasks : List Nat) (referenced : Bool)
    (msg : ResponseMessage) (tasks2 : List Nat) (ref2 : Bool) (i : Nat)
    (outc : Settlement)
    (h : workerOnMessage tasks referenced msg = .settled tasks2 ref2 i outc) :
    tasks2 = tasks.erase msg.id ∧
    ref2 = (if (tasks.erase msg.id).isEmpty then false else referenced) := by
  unfold workerOnMessage at h
  by_cases hp : msg.id ∈ tasks
  · rw [if_pos hp] at h
    cases hmp : msg.payload with
    | value v =>
      rw [hmp] at h
      simp only at h
      exact ⟨(ListenerOutcome.settled.inj h).1.symm,
        (ListenerOutcome.settled.inj h).2.1.symm⟩
    | error er =>
      rw [hmp] at h
      simp only at h
      exact ⟨(ListenerOutcome.settled.inj h).1.symm,
        (ListenerOutcome.settled.inj h).2.1.symm⟩
  · rw [if_neg hp] at h
    cases h

/-- C3: the claim that settling an id absent from the task registry never
raises an exception out of the response-handling path is refuted at a
concrete input: a response for the unregistered id 0 makes the listener
throw a TypeError. -/
theorem respond_absent_id_throws_cex :
    workerOnMessage [] true ⟨0, .value []⟩ =
      .threw [] false
        "TypeError: Cannot read properties of undefined (reading resolve)" := rfl

/-- C3 amended: for every response whose id has no registered task, the
listener still deletes the (absent) id, still unrefs the worker when the
registry is empty, and then throws a TypeError out of the response-handling
path instead of returning. -/
theorem respond_absent_id_throws (tasks : List Nat) (referenced : Bool)
    (msg : ResponseMessage) (h : msg.id ∉ tasks) :
    workerOnMessage tasks referenced msg =
      .threw (tasks.erase msg.id)
        (if (tasks.erase msg.id).isEmpty then false else referenced)
        "TypeError: Cannot read properties of undefined (reading resolve)" := by
  unfold workerOnMessage
  rw [if_neg h]

/-- Witness for the amended C3: a response for id 0 with only id 1
registered throws and leaves the registry untouched. -/
theorem respond_absent_id_throws_witness :
    workerOnMessage [1] true ⟨0, .value []⟩ =
      .threw ([1].erase 0) (if ([1].erase 0).isEmpty then false else true)
        "TypeError: Cannot read properties of undefined (reading resolve)" :=
  respond_absent_id_throws [1] true ⟨0, .value []⟩ (by decide)

/-- C4: in every fault-free run of the dispatch system, each settled task id
is settled at most once (the settlement list has no duplicate ids), and once
the registry has drained, the settled ids are exactly the ids ever
registered, each exactly once. -/
theorem registered_tasks_settled_exactly_once (evs : List SysEvent)
    (s : SysState) (hrun : sysRun initState evs = some s) :
    (s.settled.map Prod.fst).Nodup ∧
    (s.tasks = [] →
      (s.settled.map Prod.fst).Perm (List.range s.taskIdCounter)) := by
  obtain ⟨hnd, hndf, hsub, hperm, href⟩ := sysRun_inv evs initState s hrun sysInv_init
  constructor
  · have hall : ((s.settled.map Prod.fst) ++ s.tasks).Nodup :=
      (hperm.nodup_iff).mpr (List.nodup_range _)
    exact (List.sublist_append_left _ _).nodup hall
  · intro h
    rw [h] at hperm
    simpa using hperm

/-- Witness for C4: the run that dispatches one task and receives its
response settles exactly the single registered id. -/
theorem registered_tasks_settled_exactly_once_witness :
    (((⟨1, [], true, false, [], [(0, Settlement.resolved [1])]⟩ :
        SysState).settled.map Prod.fst).Nodup) ∧
    ((⟨1, [], true, false, [], [(0, Settlement.resolved [1])]⟩ :
        SysState).tasks = [] →
      (((⟨1, [], true, false, [], [(0, Settlement.resolved [1])]⟩ :
          SysState).settled.map Prod.fst).Perm (List.range 1))) :=
  registered_tasks_settled_exactly_once
    [.dispatch "hash", .respond 0 (.value [1])] _ rfl

/-- C5: the background worker is created lazily (absent initially, created
exactly by dispatch steps), never destroyed once created, becomes referenced
on every dispatch, and on a response becomes unreferenced precisely when the
response drains the registry to empty, keeping its referenced flag
otherwise. -/
theorem worker_lifecycle_transitions (s : SysState) (e : SysEvent)
    (s2 : SysState) (hstep : sysStep s e = some s2) :
    (initState.workerCreated = false ∧ initState.workerReferenced = false) ∧
    (s.workerCreated = true → s2.workerCreated = true) ∧
    (s.workerCreated = false → s2.workerCreated = true →
      ∃ m, e = .dispatch m) ∧
    (∀ m, e = .dispatch m →
      s2.workerCreated = true ∧ s2.workerReferenced = true) ∧
    (∀ id p, e = .respond id p →
      s2.workerCreated = s.workerCreated ∧
      (s2.tasks = [] → s2.workerReferenced = false) ∧
      (s2.tasks ≠ [] → s2.workerReferenced = s.workerReferenced)) := by
  cases e with
  | dispatch m =>
    have hs2 : s2 = {
          taskIdCounter := s.taskIdCounter + 1
          tasks := s.tasks ++ [s.taskIdCounter]
          workerCreated := true
          workerReferenced := true
          inFlight := s.inFlight ++ [s.taskIdCounter]
          settled := s.settled } := by
      simpa [sysStep] using hstep.symm
    subst hs2
    refine ⟨⟨rfl, rfl⟩, fun _ => rfl, fun _ _ => ⟨m, rfl⟩,
      fun _ _ => ⟨rfl, rfl⟩, ?_⟩
    intro id p hcontra
    cases hcontra
  | respond id payload =>
    simp only [sysStep] at hstep
    by_cases hif : id ∈ s.inFlight
    · rw [if_pos hif] at hstep
      cases hwm : workerOnMessage s.tasks s.workerReferenced ⟨id, payload⟩ with
      | settled tasks2 ref2 i outc =>
        rw [hwm] at hstep
        simp only at hstep
        have hs2 := (Option.some.inj hstep).symm
        obtain ⟨htasks2, href2⟩ :=
          workerOnMessage_settled_shape s.tasks s.workerReferenced
            ⟨id, payload⟩ tasks2 ref2 i outc hwm
        subst hs2
        refine ⟨⟨rfl, rfl⟩, fun h => h, ?_, ?_, ?_⟩
        · intro h1 h2
          exact absurd h2 (by simp [h1])
        · intro m hcontra
          cases hcontra
        intro id2 p2 _
        refine ⟨rfl, ?_, ?_⟩
        · intro hempty
          have h0 : s.tasks.erase (⟨id, payload⟩ : ResponseMessage).id = [] := by
            rw [← htasks2]
            exact hempty
          show ref2 = false
          rw [href2, h0]
          simp
        · intro hne
          have h0 : ¬((s.tasks.erase (⟨id, payload⟩ : ResponseMessage).id).isEmpty = true) := by
            rw [List.isEmpty_iff, ← htasks2]
            exact hne
          show ref2 = s.workerReferenced
          rw [href2, if_neg h0]
      | threw t2 r2 exn =>
        rw [hwm] at hstep
        cases hstep
    · rw [if_neg hif] at hstep
      cases hstep

/-- Witness for C5: the very first dispatch creates and references the
worker. -/
theorem worker_lifecycle_transitions_witness :
    (initState.workerCreated = false ∧ initState.workerReferenced = false) ∧
    (initState.workerCreated = true →
      (⟨1, [0], true, true, [0], []⟩ : SysState).workerCreated = true) ∧
    (initState.workerCreated = false →
      (⟨1, [0], true, true, [0], []⟩ : SysState).workerCreated = true →
      ∃ m, SysEvent.dispatch "hash" = .dispatch m) ∧
    (∀ m, SysEvent.dispatch "hash" = .dispatch m →
      (⟨1, [0], true, true, [0], []⟩ : SysState).workerCreated = true ∧
      (⟨1, [0], true, true, [0], []⟩ : SysState).workerReferenced = true) ∧
    (∀ id p, SysEvent.dispatch "hash" = .respond id p →
      (⟨1, [0], true, true, [0], []⟩ : SysState).workerCreated =
        initState.workerCreated ∧
      ((⟨1, [0], true, true, [0], []⟩ : SysState).tasks = [] →
        (⟨1, [0], true, true, [0], []⟩ : SysState).workerReferenced = false) ∧
      ((⟨1, [0], true, true, [0], []⟩ : SysState).tasks ≠ [] →
        (⟨1, [0], true, true, [0], []⟩ : SysState).workerReferenced =
          initState.workerReferenced)) :=
  worker_lifecycle_transitions initState (.dispatch "hash")
    ⟨1, [0], true, true, [0], []⟩ rfl
